import Mathlib

/-!
Verification development for the tech-news publication pipeline (`run.py`).

The pipeline keeps a persistent table `posts` of news entries keyed by the
SHA-256 hex digest of the entry URL, with two per-channel delivery flags
(`posted_tg`, `posted_vk`).  Each run upserts freshly fetched entries,
selects the rows where at least one flag is 0 (newest insertion first),
and for each selected row — bounded by `MAX_POSTS` — rewrites the text via
an external service, best-effort fetches a preview image, posts to the
Telegram and VK channels, and finally sets both flags to 1.

The shallow embedding below models the store as a list of rows in rowid
(insertion) order and the external collaborators (rewrite service, image
fetch/resize, the two posting APIs) as per-entry outcome environments:
each collaborator call either completes or raises, exactly following the
control flow of `run.py`.
-/

namespace NewsBot

/-! ### SHA-256 (`hashlib.sha256(url.encode()).hexdigest()` in `hash_id`)

A direct implementation of FIPS 180-4 SHA-256 over byte lists, with 32-bit
words represented as `Nat` reduced modulo `2 ^ 32`. -/

namespace SHA256

/-- Right rotation of a 32-bit word. -/
def rotr (x n : Nat) : Nat := ((x >>> n) ||| (x <<< (32 - n))) % 4294967296

/-- Bitwise complement of a 32-bit word. -/
def compl32 (x : Nat) : Nat := x ^^^ 4294967295

/-- The 64 round constants (fractional parts of cube roots of the first
64 primes), written in decimal. -/
def K : List Nat :=
  [1116352408, 1899447441, 3049323471, 3921009573, 961987163,
   1508970993, 2453635748, 2870763221, 3624381080, 310598401,
   607225278, 1426881987, 1925078388, 2162078206, 2614888103,
   3248222580, 3835390401, 4022224774, 264347078, 604807628,
   770255983, 1249150122, 1555081692, 1996064986, 2554220882,
   2821834349, 2952996808, 3210313671, 3336571891, 3584528711,
   113926993, 338241895, 666307205, 773529912, 1294757372,
   1396182291, 1695183700, 1986661051, 2177026350, 2456956037,
   2730485921, 2820302411, 3259730800, 3345764771, 3516065817,
   3600352804, 4094571909, 275423344, 430227734, 506948616,
   659060556, 883997877, 958139571, 1322822218, 1537002063,
   1747873779, 1955562222, 2024104815, 2227730452, 2361852424,
   2428436474, 2756734187, 3204031479, 3329325298]

/-- The eight working variables of the compression function. -/
structure Hash8 where
  a : Nat
  b : Nat
  c : Nat
  d : Nat
  e : Nat
  f : Nat
  g : Nat
  h : Nat
deriving DecidableEq, Repr

/-- Initial hash value (fractional parts of square roots of the first
8 primes), written in decimal. -/
def H0 : Hash8 :=
  ⟨1779033703, 3144134277, 1013904242, 2773480762,
   1359893119, 2600822924, 528734635, 1541459225⟩

/-- One round of the compression function with round constant `ki` and
schedule word `wi`. -/
def round (st : Hash8) (ki wi : Nat) : Hash8 :=
  let s1 := (rotr st.e 6) ^^^ (rotr st.e 11) ^^^ (rotr st.e 25)
  let ch := (st.e &&& st.f) ^^^ (compl32 st.e &&& st.g)
  let t1 := (st.h + s1 + ch + ki + wi) % 4294967296
  let s0 := (rotr st.a 2) ^^^ (rotr st.a 13) ^^^ (rotr st.a 22)
  let maj := (st.a &&& st.b) ^^^ (st.a &&& st.c) ^^^ (st.b &&& st.c)
  let t2 := (s0 + maj) % 4294967296
  ⟨(t1 + t2) % 4294967296, st.a, st.b, st.c,
   (st.d + t1) % 4294967296, st.e, st.f, st.g⟩

/-- Group a byte list into big-endian 32-bit words. -/
def toWords : List Nat → List Nat
  | b0 :: b1 :: b2 :: b3 :: rest =>
      (b0 * 16777216 + b1 * 65536 + b2 * 256 + b3) :: toWords rest
  | _ => []

/-- σ₀ of the message schedule. -/
def sigma0 (x : Nat) : Nat := (rotr x 7) ^^^ (rotr x 18) ^^^ (x >>> 3)

/-- σ₁ of the message schedule. -/
def sigma1 (x : Nat) : Nat := (rotr x 17) ^^^ (rotr x 19) ^^^ (x >>> 10)

/-- Extend the 16 block words by `n` further schedule words. -/
def extend (ws : List Nat) : Nat → List Nat
  | 0 => ws
  | n + 1 =>
      let prev := extend ws n
      let l := prev.length
      prev ++ [(sigma1 (prev.getD (l - 2) 0) + prev.getD (l - 7) 0 +
                sigma0 (prev.getD (l - 15) 0) + prev.getD (l - 16) 0) % 4294967296]

/-- Compress one 64-byte block into the running hash value. -/
def processBlock (st : Hash8) (block : List Nat) : Hash8 :=
  let ws := extend (toWords block) 48
  let r := (ws.zip K).foldl (fun s p => round s p.2 p.1) st
  ⟨(st.a + r.a) % 4294967296, (st.b + r.b) % 4294967296,
   (st.c + r.c) % 4294967296, (st.d + r.d) % 4294967296,
   (st.e + r.e) % 4294967296, (st.f + r.f) % 4294967296,
   (st.g + r.g) % 4294967296, (st.h + r.h) % 4294967296⟩

/-- Split a byte list into 64-byte chunks; structural recursion on a fuel
bound (the list length suffices, as each step drops 64 > 0 bytes). -/
def chunksAux : Nat → List Nat → List (List Nat)
  | 0, _ => []
  | _, [] => []
  | fuel + 1, bs => bs.take 64 :: chunksAux fuel (bs.drop 64)

/-- Split a byte list into 64-byte chunks. -/
def chunks (bs : List Nat) : List (List Nat) :=
  chunksAux bs.length bs

/-- Big-endian bytes of `n`, `k` bytes wide. -/
def beBytes (n : Nat) : Nat → List Nat
  | 0 => []
  | k + 1 => (n >>> (8 * k)) % 256 :: beBytes n k

/-- SHA-256 padding: `0x80`, zeros to 56 mod 64, then the 64-bit
big-endian bit length. -/
def pad (bs : List Nat) : List Nat :=
  let l := bs.length
  let zeros := (120 - (l + 1) % 64) % 64
  bs ++ 0x80 :: List.replicate zeros 0 ++ beBytes (8 * l) 8

/-- Hexadecimal digit character for `n < 16`. -/
def hexDigit (n : Nat) : Char :=
  if n < 10 then Char.ofNat (48 + n) else Char.ofNat (87 + n)

/-- Lowercase hexadecimal rendering of a 32-bit word, 8 digits. -/
def wordHex (w : Nat) : List Char :=
  [hexDigit ((w >>> 28) % 16), hexDigit ((w >>> 24) % 16),
   hexDigit ((w >>> 20) % 16), hexDigit ((w >>> 16) % 16),
   hexDigit ((w >>> 12) % 16), hexDigit ((w >>> 8) % 16),
   hexDigit ((w >>> 4) % 16), hexDigit (w % 16)]

/-- SHA-256 hex digest of a byte list. -/
def hexDigest (bs : List Nat) : String :=
  let st := (chunks (pad bs)).foldl processBlock H0
  String.mk (wordHex st.a ++ wordHex st.b ++ wordHex st.c ++ wordHex st.d ++
             wordHex st.e ++ wordHex st.f ++ wordHex st.g ++ wordHex st.h)

end SHA256

/-- UTF-8 bytes of a string, as natural numbers (`url.encode()`). -/
def utf8Bytes (s : String) : List Nat :=
  s.toUTF8.data.toList.map (fun b => b.toNat)

/-- `hash_id(url)`: SHA-256 hex digest of the UTF-8 encoded URL
(`hashlib.sha256(url.encode()).hexdigest()`). -/
def hash_id (url : String) : String :=
  SHA256.hexDigest (utf8Bytes url)

/-! ### Data model

A row of the `posts` table.  `posted_tg` / `posted_vk` are INTEGER 0/1
columns in SQLite, modelled as `Bool`.  The store is the table in rowid
(insertion) order: `INSERT` appends, and with no deletes anywhere in the
program, rowid order coincides with list order. -/

/-- One row of the `posts` table. -/
structure Row where
  id : String
  url : String
  title : String
  published : String
  posted_tg : Bool
  posted_vk : Bool
deriving DecidableEq, Repr

/-- The `posts` table in ascending rowid (insertion) order. -/
abbrev Store := List Row

/-- A freshly fetched feed entry, as produced by `fetch_items`. -/
structure Item where
  url : String
  title : String
  summary : String
  published : String
deriving DecidableEq, Repr

/-- The dict `{"url": ..., "title": ..., "summary": ...}` handed to
`process_item` by `run`. -/
structure WorkItem where
  url : String
  title : String
  summary : String
deriving DecidableEq, Repr

/-! ### Store operations -/

/-- One iteration of the `upsert_items` loop: `INSERT INTO posts (id, url,
title, published) VALUES (...)`, with the `sqlite3.IntegrityError` raised
on a duplicate primary key caught and ignored (`except ... pass`).  The
flag columns take their declared defaults 0. -/
def insertIfAbsent (conn : Store) (item : Item) : Store :=
  let entry_id := hash_id item.url
  if conn.any (fun r => r.id = entry_id) then conn
  else conn ++ [⟨entry_id, item.url, item.title, item.published, false, false⟩]

/-- `upsert_items(conn, items)`: insert each fetched item, ignoring
duplicates. -/
def upsert_items (conn : Store) (items : List Item) : Store :=
  items.foldl insertIfAbsent conn

/-- The selection query in `run`: `SELECT ... FROM posts WHERE posted_tg =
0 OR posted_vk = 0 ORDER BY ROWID DESC`.  Filtering preserves rowid order,
so descending rowid is the reverse of the filtered store. -/
def selectPending (conn : Store) : List Row :=
  (conn.filter (fun r => !r.posted_tg || !r.posted_vk)).reverse

/-- The update at the end of `process_item`: `UPDATE posts SET posted_tg =
1, posted_vk = 1 WHERE id = ?`. -/
def markPosted (conn : Store) (entry_id : String) : Store :=
  conn.map (fun r =>
    if r.id = entry_id then { r with posted_tg := true, posted_vk := true } else r)

/-- The flag pair of the row with the given id, if present. -/
def rowFlags (conn : Store) (entry_id : String) : Option (Bool × Bool) :=
  match conn.find? (fun r => r.id = entry_id) with
  | some r => some (r.posted_tg, r.posted_vk)
  | none => none

/-! ### External collaborators

Each outbound call of `run.py` either completes or raises.  The
environments below fix, per entry and per channel, the outcome of every
such call, so the embedded control flow can follow `run.py` exactly.
`Except Unit` models a Python call that may raise (`.error ()`). -/

/-- The ways `rewrite_with_openrouter_ultra` can raise: missing
`OPENROUTER_API_KEY` (`RuntimeError`), a network fault from
`requests.post`, `raise_for_status` on a non-2xx response, or a
`KeyError`/`AttributeError` while indexing the response JSON. -/
inductive RewriteError where
  | missingKey
  | network
  | httpStatus
  | malformedBody
deriving DecidableEq, Repr

/-- Outcomes of the two posting collaborators for one channel:
`creds` — both credential environment variables are set;
`photoOk` — the photo-bearing delivery call chain completes;
`textOk` — the text-only delivery call completes. -/
structure ChannelEnv where
  creds : Bool
  photoOk : Bool
  textOk : Bool
deriving DecidableEq, Repr

/-- Per-entry outcomes of all collaborator calls made by `process_item`:
the rewrite call, `extract_og_image` (never raises — any failure yields
`None`), `fetch_and_resize` (may raise), and the two channels. -/
structure ItemEnv where
  rewrite : Except RewriteError String
  ogImage : Option String
  resize : Except Unit (List Nat)
  tg : ChannelEnv
  vk : ChannelEnv
deriving Repr

/-- One call to `post_telegram(text, photo)` or `post_vk(text, photo)`
(the two have the same structure): with credentials missing the function
prints a notice and returns without posting; otherwise it performs the
photo-bearing or text-only delivery and raises on failure. -/
def postChannel (env : ChannelEnv) (_text : String) (photo : Option (List Nat)) :
    Except Unit Unit :=
  if env.creds then
    match photo with
    | some _ => if env.photoOk then .ok () else .error ()
    | none => if env.textOk then .ok () else .error ()
  else .ok ()

/-- The per-channel block of `process_item`: when photo bytes are present,
try the photo post and on exception fall back to a text-only post to the
same channel (the fallback is *not* wrapped in `try`); otherwise a plain
text-only post (also not wrapped in `try`). -/
def channelPost (env : ChannelEnv) (text : String) (photo : Option (List Nat)) :
    Except Unit Unit :=
  match photo with
  | some p =>
      match postChannel env text (some p) with
      | .ok _ => .ok ()
      | .error _ => postChannel env text none
  | none => postChannel env text none

/-- Whether the channel actually delivered the entry: credentials were
present and some delivery call (photo attempt or text path) succeeded. -/
def channelDelivered (env : ChannelEnv) (photo : Option (List Nat)) : Bool :=
  env.creds &&
    (match photo with
     | some _ => env.photoOk || env.textOk
     | none => env.textOk)

/-- The image section of `process_item`: `extract_og_image` returning
`None` (any failure collapses to `None`), or `fetch_and_resize` raising,
leaves `photo_bytes = None`. -/
def photoBytes (env : ItemEnv) : Option (List Nat) :=
  match env.ogImage with
  | none => none
  | some _ =>
      match env.resize with
      | .ok bs => some bs
      | .error _ => none

/-- `process_item(item, conn)`: rewrite (failure caught, returns `False`),
best-effort image, post to Telegram then VK (text-only posts may raise an
exception that propagates out of `process_item`), then set both flags to 1
and return `True`. -/
def process_item (env : ItemEnv) (it : WorkItem) (conn : Store) :
    Except Unit (Store × Bool) :=
  match env.rewrite with
  | .error _ => .ok (conn, false)
  | .ok text =>
      match channelPost env.tg text (photoBytes env) with
      | .error e => .error e
      | .ok _ =>
          match channelPost env.vk text (photoBytes env) with
          | .error e => .error e
          | .ok _ => .ok (markPosted conn (hash_id it.url), true)

/-- The summary lookup in `run`: `next((it["summary"] for it in items if
it["url"] == url), "")`. -/
def summaryFor (items : List Item) (url : String) : String :=
  match items.find? (fun it => it.url = url) with
  | some it => it.summary
  | none => ""

/-- The `WorkItem` that `run` builds for a selected row. -/
def workItemFor (items : List Item) (r : Row) : WorkItem :=
  ⟨r.url, r.title, summaryFor items r.url⟩

/-- The per-entry loop of `run`, over the selected rows with the running
`count`: break once `count >= MAX_POSTS`; an exception from `process_item`
propagates and aborts the run; a `True` return increments `count`.  The
final count is returned alongside the store to expose quota consumption. -/
def runLoop (env : String → ItemEnv) (maxPosts : Nat) (items : List Item) :
    List Row → Store → Nat → Except Unit (Store × Nat)
  | [], conn, count => .ok (conn, count)
  | r :: rest, conn, count =>
      if maxPosts ≤ count then .ok (conn, count)
      else
        match process_item (env r.url) (workItemFor items r) conn with
        | .error e => .error e
        | .ok (conn2, true) => runLoop env maxPosts items rest conn2 (count + 1)
        | .ok (conn2, false) => runLoop env maxPosts items rest conn2 count

/-- `run()`: upsert the fetched items, select the pending rows newest
first, and process them under the quota.  `env` fixes the collaborator
outcomes for the entry with each URL. -/
def run (env : String → ItemEnv) (maxPosts : Nat) (items : List Item)
    (conn : Store) : Except Unit (Store × Nat) :=
  let conn1 := upsert_items conn items
  runLoop env maxPosts items (selectPending conn1) conn1 0

/-! ### Invariant machinery -/

/-- Pointwise ordering on the flag pairs of a store: every row id present
in `c` is present in `c'` and neither of its flags dropped from `true`
back to `false`. -/
def flagsLe (c c' : Store) : Prop :=
  ∀ i p, rowFlags c i = some p →
    ∃ q, rowFlags c' i = some q ∧ (p.1 = true → q.1 = true) ∧ (p.2 = true → q.2 = true)

/-- All rows of a store have their two channel flags equal. -/
def flagsAligned (c : Store) : Prop :=
  ∀ r ∈ c, r.posted_tg = r.posted_vk

/-- Store states reachable by the pipeline's own operations, starting from
the empty table created by `get_db_connection` (`selectPending` reads but
never mutates). -/
inductive Reach : Store → Prop
  | init : Reach []
  | upsert (items : List Item) {c : Store} : Reach c → Reach (upsert_items c items)
  | process (env : ItemEnv) (it : WorkItem) {c c' : Store} {b : Bool} :
      Reach c → process_item env it c = .ok (c', b) → Reach c'

/-! ### Helper lemmas -/

theorem flagsLe_refl (c : Store) : flagsLe c c :=
  fun _ p h => ⟨p, h, fun hq => hq, fun hq => hq⟩

theorem flagsLe_trans {a b c : Store} (h1 : flagsLe a b) (h2 : flagsLe b c) :
    flagsLe a c := by
  intro i p hp
  obtain ⟨q, hq, hq1, hq2⟩ := h1 i p hp
  obtain ⟨s, hs, hs1, hs2⟩ := h2 i q hq
  exact ⟨s, hs, fun h => hs1 (hq1 h), fun h => hs2 (hq2 h)⟩

theorem rowFlags_append (conn rest : Store) (i : String) (p : Bool × Bool)
    (h : rowFlags conn i = some p) : rowFlags (conn ++ rest) i = some p := by
  unfold rowFlags at h ⊢
  rcases hf : conn.find? (fun r => r.id = i) with _ | r
  · rw [hf] at h; exact absurd h (by simp)
  · rw [hf] at h
    rw [List.find?_append, hf]
    simpa using h

theorem flagsLe_insertIfAbsent (conn : Store) (it : Item) :
    flagsLe conn (insertIfAbsent conn it) := by
  intro i p hp
  unfold insertIfAbsent
  by_cases h : conn.any (fun r => r.id = hash_id it.url)
  · simp only [h, if_true]
    exact ⟨p, hp, fun hq => hq, fun hq => hq⟩
  · simp only [h, if_false]
    exact ⟨p, rowFlags_append conn _ i p hp, fun hq => hq, fun hq => hq⟩

theorem flagsLe_upsert_items (conn : Store) (items : List Item) :
    flagsLe conn (upsert_items conn items) := by
  induction items generalizing conn with
  | nil => exact flagsLe_refl conn
  | cons it rest ih =>
      exact flagsLe_trans (flagsLe_insertIfAbsent conn it) (ih (insertIfAbsent conn it))

theorem markPosted_id (r : Row) (i : String) :
    ((if r.id = i then { r with posted_tg := true, posted_vk := true } else r) : Row).id
      = r.id := by
  by_cases h : r.id = i <;> simp [h]

theorem rowFlags_markPosted (conn : Store) (i j : String) :
    rowFlags (markPosted conn i) j =
      (conn.find? (fun r => r.id = j)).map
        (fun r => if r.id = i then (true, true) else (r.posted_tg, r.posted_vk)) := by
  unfold rowFlags markPosted
  rw [List.find?_map]
  have hcomp :
      ((fun r : Row => decide (r.id = j)) ∘
        fun r : Row => if r.id = i then { r with posted_tg := true, posted_vk := true } else r)
      = (fun r : Row => decide (r.id = j)) := by
    funext r
    simp only [Function.comp_apply]
    by_cases h : r.id = i <;> simp [h]
  rw [hcomp]
  rcases hf : List.find? (fun r : Row => decide (r.id = j)) conn with _ | r
  · simp
  · by_cases h : r.id = i <;> simp [h]

theorem flagsLe_markPosted (conn : Store) (i : String) :
    flagsLe conn (markPosted conn i) := by
  intro j p hp
  unfold rowFlags at hp
  rcases hf : conn.find? (fun r => r.id = j) with _ | r
  · rw [hf] at hp; exact absurd hp (by simp)
  · rw [hf] at hp
    rw [rowFlags_markPosted, hf]
    by_cases h : r.id = i
    · exact ⟨(true, true), by simp [h], fun _ => rfl, fun _ => rfl⟩
    · refine ⟨(r.posted_tg, r.posted_vk), by simp [h], ?_, ?_⟩ <;>
        · intro hq
          simp only [Option.some.injEq] at hp
          rw [← hp] at hq
          exact hq

theorem insertIfAbsent_of_present (conn : Store) (it : Item)
    (h : (conn.any (fun r => r.id = hash_id it.url)) = true) :
    insertIfAbsent conn it = conn := by
  unfold insertIfAbsent
  simp [h]

theorem insertIfAbsent_present (conn : Store) (it : Item) :
    ((insertIfAbsent conn it).any (fun r => r.id = hash_id it.url)) = true := by
  unfold insertIfAbsent
  by_cases h : (conn.any (fun r => r.id = hash_id it.url)) = true
  · rw [if_pos h]; exact h
  · rw [if_neg h]
    simp [List.any_append]

theorem flagsLe_process_item (env : ItemEnv) (it : WorkItem) {conn conn' : Store}
    {b : Bool} (h : process_item env it conn = .ok (conn', b)) :
    flagsLe conn conn' := by
  unfold process_item at h
  split at h
  · simp only [Except.ok.injEq, Prod.mk.injEq] at h
    rw [← h.1]
    exact flagsLe_refl conn
  · split at h
    · exact absurd h (by simp)
    · split at h
      · exact absurd h (by simp)
      · simp only [Except.ok.injEq, Prod.mk.injEq] at h
        rw [← h.1]
        exact flagsLe_markPosted conn (hash_id it.url)

theorem flagsLe_runLoop (env : String → ItemEnv) (m : Nat) (items : List Item) :
    ∀ rows conn count s c, runLoop env m items rows conn count = .ok (s, c) →
      flagsLe conn s := by
  intro rows
  induction rows with
  | nil =>
      intro conn count s c h
      unfold runLoop at h
      simp only [Except.ok.injEq, Prod.mk.injEq] at h
      rw [← h.1]
      exact flagsLe_refl conn
  | cons r rest ih =>
      intro conn count s c h
      unfold runLoop at h
      by_cases hc : m ≤ count
      · rw [if_pos hc] at h
        simp only [Except.ok.injEq, Prod.mk.injEq] at h
        rw [← h.1]
        exact flagsLe_refl conn
      · rw [if_neg hc] at h
        split at h
        · exact absurd h (by simp)
        · next conn2 heq =>
            exact flagsLe_trans (flagsLe_process_item _ _ heq) (ih conn2 _ s c h)
        · next conn2 heq =>
            exact flagsLe_trans (flagsLe_process_item _ _ heq) (ih conn2 _ s c h)

theorem flagsAligned_insertIfAbsent (conn : Store) (it : Item)
    (h : flagsAligned conn) : flagsAligned (insertIfAbsent conn it) := by
  intro r hr
  unfold insertIfAbsent at hr
  by_cases hc : (conn.any (fun r => r.id = hash_id it.url)) = true
  · rw [if_pos hc] at hr
    exact h r hr
  · rw [if_neg hc] at hr
    rcases List.mem_append.mp hr with hm | hm
    · exact h r hm
    · simp only [List.mem_singleton] at hm
      rw [hm]

theorem flagsAligned_upsert_items (conn : Store) (items : List Item)
    (h : flagsAligned conn) : flagsAligned (upsert_items conn items) := by
  induction items generalizing conn with
  | nil => exact h
  | cons it rest ih =>
      exact ih (insertIfAbsent conn it) (flagsAligned_insertIfAbsent conn it h)

theorem flagsAligned_markPosted (conn : Store) (i : String)
    (h : flagsAligned conn) : flagsAligned (markPosted conn i) := by
  intro r hr
  unfold markPosted at hr
  obtain ⟨r', hr', hfr⟩ := List.mem_map.mp hr
  by_cases hc : r'.id = i
  · rw [← hfr]
    simp [hc]
  · rw [← hfr]
    simp only [hc, if_false]
    exact h r' hr'

theorem flagsAligned_process_item (env : ItemEnv) (it : WorkItem)
    {conn conn' : Store} {b : Bool} (hp : process_item env it conn = .ok (conn', b))
    (h : flagsAligned conn) : flagsAligned conn' := by
  unfold process_item at hp
  split at hp
  · simp only [Except.ok.injEq, Prod.mk.injEq] at hp
    rw [← hp.1]
    exact h
  · split at hp
    · exact absurd hp (by simp)
    · split at hp
      · exact absurd hp (by simp)
      · simp only [Except.ok.injEq, Prod.mk.injEq] at hp
        rw [← hp.1]
        exact flagsAligned_markPosted conn (hash_id it.url) h

theorem markPosted_flags (conn : Store) (i : String) :
    ∀ r ∈ markPosted conn i, r.id = i → r.posted_tg = true ∧ r.posted_vk = true := by
  intro r hr hid
  unfold markPosted at hr
  obtain ⟨r', hr', hfr⟩ := List.mem_map.mp hr
  by_cases h : r'.id = i
  · rw [← hfr]
    simp [h]
  · rw [← hfr] at hid
    simp [h] at hid

/-! ### Claims -/

/-- C9: the entry id is a deterministic function of the URL alone — for any
two items with the same URL string the computed id (`hash_id`, the SHA-256
hex digest of the UTF-8 encoded URL) is identical, independent of title,
summary and published fields. -/
theorem hash_id_deterministic (e1 e2 : Item) (h : e1.url = e2.url) :
    hash_id e1.url = hash_id e2.url ∧
    hash_id e1.url = SHA256.hexDigest (utf8Bytes e1.url) ∧
    ∀ t s p t' s' p',
      hash_id (Item.mk e1.url t s p).url = hash_id (Item.mk e2.url t' s' p').url := by
  refine ⟨by rw [h], rfl, fun t s p t' s' p' => by simp only [h]⟩

theorem hash_id_deterministic_witness :
    hash_id (Item.mk "https://x/a" "T1" "S1" "P1").url
      = hash_id (Item.mk "https://x/a" "T2" "S2" "P2").url :=
  (hash_id_deterministic ⟨"https://x/a", "T1", "S1", "P1"⟩
    ⟨"https://x/a", "T2", "S2", "P2"⟩ rfl).2.2 "T1" "S1" "P1" "T2" "S2" "P2"

/-- C5: the pending selection returns exactly the stored rows with at
least one false channel flag, in descending rowid order (a sublist of the
reversed, i.e. newest-first, store), and never returns a row whose flags
are both true. -/
theorem selectPending_spec (conn : Store) :
    (selectPending conn).Sublist conn.reverse ∧
    (∀ r : Row, r ∈ selectPending conn ↔
      r ∈ conn ∧ (r.posted_tg = false ∨ r.posted_vk = false)) ∧
    (∀ r : Row, r ∈ selectPending conn → ¬(r.posted_tg = true ∧ r.posted_vk = true)) := by
  refine ⟨List.Sublist.reverse (List.filter_sublist conn), ?_, ?_⟩
  · intro r
    unfold selectPending
    rw [List.mem_reverse, List.mem_filter]
    constructor
    · rintro ⟨hm, hp⟩
      refine ⟨hm, ?_⟩
      rcases htg : r.posted_tg <;> rcases hvk : r.posted_vk <;> simp_all
    · rintro ⟨hm, hp⟩
      refine ⟨hm, ?_⟩
      rcases hp with h | h <;> simp [h]
  · intro r hr ⟨htg, hvk⟩
    unfold selectPending at hr
    rw [List.mem_reverse, List.mem_filter] at hr
    simp [htg, hvk] at hr

theorem selectPending_spec_witness :
    (⟨"i", "u", "t", "p", false, false⟩ : Row)
      ∈ selectPending [⟨"i", "u", "t", "p", false, false⟩] :=
  ((selectPending_spec [⟨"i", "u", "t", "p", false, false⟩]).2.1 _).mpr
    ⟨by simp, Or.inl rfl⟩

/-- C6: upserting a candidate whose URL hashes to an id already in the
store is a no-op (the duplicate-key error is caught and ignored): the
store, including every row's channel flags, is unchanged, and ingesting
the same URL twice gives the same store as ingesting it once. -/
theorem upsert_duplicate_noop (conn : Store) (it : Item) :
    ((conn.any (fun r => r.id = hash_id it.url)) = true → insertIfAbsent conn it = conn) ∧
    insertIfAbsent (insertIfAbsent conn it) it = insertIfAbsent conn it ∧
    upsert_items conn [it, it] = upsert_items conn [it] := by
  have hidem : insertIfAbsent (insertIfAbsent conn it) it = insertIfAbsent conn it :=
    insertIfAbsent_of_present _ it (insertIfAbsent_present conn it)
  exact ⟨insertIfAbsent_of_present conn it, hidem, by simpa [upsert_items] using hidem⟩

theorem upsert_duplicate_noop_witness :
    insertIfAbsent [⟨hash_id "a", "a", "T", "P", true, false⟩] ⟨"a", "T2", "S2", "P2"⟩
      = [⟨hash_id "a", "a", "T", "P", true, false⟩] :=
  (upsert_duplicate_noop [⟨hash_id "a", "a", "T", "P", true, false⟩]
    ⟨"a", "T2", "S2", "P2"⟩).1 (by simp)

/-- Collaborator outcomes of a fully healthy entry whose page has no
Open Graph image tag: rewrite succeeds, both channels have credentials and
accept deliveries. -/
def envHealthy : ItemEnv :=
  ⟨.ok "digest", none, .error (), ⟨true, true, true⟩, ⟨true, true, true⟩⟩

/-- Collaborator outcomes of an entry whose rewrite call raises a network
error while everything else is healthy. -/
def envRewriteFails : ItemEnv :=
  ⟨.error .network, none, .error (), ⟨true, true, true⟩, ⟨true, true, true⟩⟩

/-- C4: a failed rewrite call (missing credential, network error, non-2xx
response, or malformed response body — every failure mode raises and is
caught) stops the entry's processing: `process_item` returns `False` with
the store untouched, no posting is attempted on either channel (the result
is the same for every posting-channel outcome), and in the run loop the
entry does not consume quota — the loop continues to the next candidate
with the same count. -/
theorem rewrite_failure_contained (env : String → ItemEnv) (r : Row)
    (e : RewriteError) (h : (env r.url).rewrite = .error e) :
    (∀ conn it tg' vk',
      process_item { env r.url with tg := tg', vk := vk' } it conn = .ok (conn, false)) ∧
    (∀ m items rest conn count, count < m →
      runLoop env m items (r :: rest) conn count = runLoop env m items rest conn count) := by
  have h1 : ∀ conn it tg' vk',
      process_item { env r.url with tg := tg', vk := vk' } it conn = .ok (conn, false) := by
    intro conn it tg' vk'
    unfold process_item
    simp [h]
  refine ⟨h1, ?_⟩
  intro m items rest conn count hc
  have h2 : process_item (env r.url) (workItemFor items r) conn = .ok (conn, false) :=
    h1 conn (workItemFor items r) (env r.url).tg (env r.url).vk
  conv_lhs => rw [runLoop]
  rw [if_neg (Nat.not_le.mpr hc), h2]

theorem rewrite_failure_contained_witness :
    process_item envRewriteFails ⟨"a", "T", "S"⟩ [] = .ok ([], false) :=
  (rewrite_failure_contained (fun _ => envRewriteFails) ⟨"i", "a", "T", "P", false, false⟩
    .network rfl).1 [] ⟨"a", "T", "S"⟩ ⟨true, true, true⟩ ⟨true, true, true⟩

/-- C8: failure of image retrieval at any stage (page fetch error or
absent `og:image` tag collapse to `ogImage = none`; a download/decode
failure is a raising `resize`) yields image-absent content instead of
aborting the entry, and text publication proceeds: if the rewrite succeeds
and both channels accept the text-only delivery, both channel flags of the
entry's row become true with no image attached. -/
theorem image_failure_best_effort (env : ItemEnv) (it : WorkItem) (conn : Store) :
    ((env.ogImage = none ∨ env.resize = .error ()) → photoBytes env = none) ∧
    (∀ text, env.rewrite = .ok text → photoBytes env = none →
      env.tg.creds = true → env.tg.textOk = true →
      env.vk.creds = true → env.vk.textOk = true →
      process_item env it conn = .ok (markPosted conn (hash_id it.url), true) ∧
      ∀ r ∈ markPosted conn (hash_id it.url), r.id = hash_id it.url →
        r.posted_tg = true ∧ r.posted_vk = true) := by
  constructor
  · intro h
    unfold photoBytes
    rcases hog : env.ogImage with _ | u
    · rfl
    · rcases h with h | h
      · exact absurd hog (by simp [h])
      · rw [h]
  · intro text hrw hpb htgc htgt hvkc hvkt
    have htg : channelPost env.tg text (photoBytes env) = .ok () := by
      rw [hpb]
      unfold channelPost postChannel
      simp [htgc, htgt]
    have hvk : channelPost env.vk text (photoBytes env) = .ok () := by
      rw [hpb]
      unfold channelPost postChannel
      simp [hvkc, hvkt]
    constructor
    · simp only [process_item, hrw, htg, hvk]
    · exact markPosted_flags conn (hash_id it.url)

theorem image_failure_best_effort_witness :
    process_item envHealthy ⟨"a", "T", "S"⟩ [⟨hash_id "a", "a", "T", "P", false, false⟩]
      = .ok (markPosted [⟨hash_id "a", "a", "T", "P", false, false⟩] (hash_id "a"), true) :=
  ((image_failure_best_effort envHealthy ⟨"a", "T", "S"⟩
    [⟨hash_id "a", "a", "T", "P", false, false⟩]).2 "digest"
    rfl rfl rfl rfl rfl rfl).1

/-- C7: across the pipeline's mutating operations — ingestion upsert,
`process_item`'s flag update, and a whole `run` — a channel flag that is
true is never reset to false (`selectPending` performs no mutation). -/
theorem flags_never_reset (conn : Store) (items : List Item)
    (env : String → ItemEnv) (m : Nat) :
    flagsLe conn (upsert_items conn items) ∧
    (∀ e it conn' b, process_item e it conn = .ok (conn', b) → flagsLe conn conn') ∧
    (∀ s c, run env m items conn = .ok (s, c) → flagsLe conn s) := by
  refine ⟨flagsLe_upsert_items conn items,
    fun e it conn' b h => flagsLe_process_item e it h, ?_⟩
  intro s c h
  simp only [run] at h
  exact flagsLe_trans (flagsLe_upsert_items conn items)
    (flagsLe_runLoop env m items _ _ 0 s c h)

theorem flags_never_reset_witness :
    flagsLe [⟨hash_id "u", "u", "t", "p", true, false⟩]
      [⟨hash_id "u", "u", "t", "p", true, true⟩] :=
  (flags_never_reset [⟨hash_id "u", "u", "t", "p", true, false⟩] []
    (fun _ => envHealthy) 3).2.2 [⟨hash_id "u", "u", "t", "p", true, true⟩] 1
    (by rfl)

/-- Collaborator outcomes of an entry for which Telegram credentials are
missing (the channel is skipped) while VK is healthy. -/
def envTgSkipped : ItemEnv :=
  ⟨.ok "digest", none, .error (), ⟨false, true, true⟩, ⟨true, true, true⟩⟩

/-- Collaborator outcomes of an entry for which Telegram's text-only
delivery call fails while VK is healthy. -/
def envTgTextFails : ItemEnv :=
  ⟨.ok "digest", none, .error (), ⟨true, true, false⟩, ⟨true, true, true⟩⟩

/-- Collaborator outcomes of an entry for which both channels'
credentials are missing: both channels are skipped, nothing is
delivered. -/
def envBothSkipped : ItemEnv :=
  ⟨.ok "digest", none, .error (), ⟨false, true, true⟩, ⟨false, true, true⟩⟩

/-- C1 counterexample: with Telegram credentials missing the channel is
skipped and delivers nothing, yet `process_item` (VK delivering) sets
`posted_tg` — the flag of the skipped channel — to true, refuting both
"a channel's flag becomes true only if that channel confirmed delivery"
and "a skipped channel's flag stays false". -/
theorem flag_true_without_delivery :
    channelDelivered envTgSkipped.tg (photoBytes envTgSkipped) = false ∧
    process_item envTgSkipped ⟨"a", "T", "S"⟩ [⟨hash_id "a", "a", "T", "P", false, false⟩]
      = .ok ([⟨hash_id "a", "a", "T", "P", true, true⟩], true) ∧
    rowFlags [⟨hash_id "a", "a", "T", "P", true, true⟩] (hash_id "a")
      = some (true, true) := by
  exact ⟨rfl, by rfl, by rfl⟩

/-- C1 amended: the flags do not track per-channel delivery — whenever the
rewrite succeeds and neither channel's posting code raises an uncaught
exception (delivery and credentials-missing skip are indistinguishable
here), both flags of the entry's row are set to true in a single update;
when `process_item` instead returns `False` the store is unchanged, so the
entry stays pending. -/
theorem process_item_flag_semantics (env : ItemEnv) (it : WorkItem) (conn : Store) :
    (process_item env it conn = .ok (markPosted conn (hash_id it.url), true) ↔
      ∃ t, env.rewrite = .ok t ∧
        channelPost env.tg t (photoBytes env) = .ok () ∧
        channelPost env.vk t (photoBytes env) = .ok ()) ∧
    (∀ conn', process_item env it conn = .ok (conn', false) → conn' = conn) ∧
    (∀ r ∈ markPosted conn (hash_id it.url), r.id = hash_id it.url →
      r.posted_tg = true ∧ r.posted_vk = true) := by
  refine ⟨⟨?_, ?_⟩, ?_, markPosted_flags conn (hash_id it.url)⟩
  · intro h
    unfold process_item at h
    split at h
    · simp only [Except.ok.injEq, Prod.mk.injEq] at h
      exact absurd h.2 (by simp)
    · next text hrw =>
        split at h
        · exact absurd h (by simp)
        · next a htg =>
            split at h
            · exact absurd h (by simp)
            · next b hvk => exact ⟨text, hrw, htg, hvk⟩
  · rintro ⟨t, h1, h2, h3⟩
    simp only [process_item, h1, h2, h3]
  · intro conn' h
    unfold process_item at h
    split at h
    · simp only [Except.ok.injEq, Prod.mk.injEq] at h
      exact h.1.symm
    · split at h
      · exact absurd h (by simp)
      · split at h
        · exact absurd h (by simp)
        · simp only [Except.ok.injEq, Prod.mk.injEq] at h
          exact absurd h.2 (by simp)

theorem process_item_flag_semantics_witness :
    process_item envTgSkipped ⟨"b", "T", "S"⟩ [] = .ok (markPosted [] (hash_id "b"), true) :=
  ((process_item_flag_semantics envTgSkipped ⟨"b", "T", "S"⟩ []).1).mpr
    ⟨"digest", rfl, rfl, rfl⟩

/-- C2 counterexample: Telegram's text-only delivery failing raises an
exception that `process_item` does not catch: the entry's processing ends
with the exception even though VK — which would have delivered — was never
attempted, and the exception aborts the whole run. -/
theorem run_aborted_by_channel_failure :
    channelDelivered envTgTextFails.vk (photoBytes envTgTextFails) = true ∧
    process_item envTgTextFails ⟨"a", "T", "S"⟩ [⟨hash_id "a", "a", "T", "P", false, false⟩]
      = .error () ∧
    run (fun _ => envTgTextFails) 3 [⟨"a", "T", "S", "P"⟩] [] = .error () := by
  exact ⟨rfl, rfl, by rfl⟩

/-- C2 amended: only the *photo* delivery failure is contained — the
channel falls back to a text-only post and, when that succeeds, processing
continues to VK, whose outcome alone then decides the entry; a rewrite
failure is likewise contained (handled by `rewrite_failure_contained`);
but an uncaught text-only posting failure on a channel aborts
`process_item` and with it the entire run, skipping the other channel and
all remaining candidates. -/
theorem channel_failure_containment (env : ItemEnv) (it : WorkItem) (conn : Store) :
    (∀ (ch : ChannelEnv) t p, ch.creds = true → ch.textOk = true →
      channelPost ch t (some p) = .ok ()) ∧
    (∀ t, env.rewrite = .ok t → channelPost env.tg t (photoBytes env) = .ok () →
      (process_item env it conn = .ok (markPosted conn (hash_id it.url), true) ↔
        channelPost env.vk t (photoBytes env) = .ok ())) ∧
    (∀ (envF : String → ItemEnv) m items (r : Row) rest count, count < m →
      process_item (envF r.url) (workItemFor items r) conn = .error () →
      runLoop envF m items (r :: rest) conn count = .error ()) := by
  refine ⟨?_, ?_, ?_⟩
  · intro ch t p hc ht
    unfold channelPost postChannel
    rcases hp : ch.photoOk <;> simp [hc, ht, hp]
  · intro t hrw htg
    constructor
    · intro h
      unfold process_item at h
      split at h
      · simp only [Except.ok.injEq, Prod.mk.injEq] at h
        exact absurd h.2 (by simp)
      · next text hrw2 =>
          split at h
          · exact absurd h (by simp)
          · next a htg2 =>
              split at h
              · exact absurd h (by simp)
              · next b hvk =>
                  rw [hrw] at hrw2
                  injection hrw2
    · intro hvk
      simp only [process_item, hrw, htg, hvk]
  · intro envF m items r rest count hc hp
    conv_lhs => rw [runLoop]
    rw [if_neg (Nat.not_le.mpr hc), hp]

theorem channel_failure_containment_witness :
    runLoop (fun _ => envTgTextFails) 3 [] [⟨"i", "a", "T", "P", false, false⟩] [] 0
      = .error () :=
  (channel_failure_containment envTgTextFails ⟨"a", "T", ""⟩ []).2.2
    (fun _ => envTgTextFails) 3 [] ⟨"i", "a", "T", "P", false, false⟩ [] 0
    (by norm_num) rfl

/-- C3 counterexample: with both channels' credentials missing neither
channel delivers anything, yet the run sets both flags of the entry and
counts it against the quota (final count 1), refuting "if neither channel
succeeded the quota is not incremented and no flags are updated". -/
theorem quota_without_delivery :
    channelDelivered envBothSkipped.tg (photoBytes envBothSkipped) = false ∧
    channelDelivered envBothSkipped.vk (photoBytes envBothSkipped) = false ∧
    run (fun _ => envBothSkipped) 3 [⟨"a", "T", "S", "P"⟩] []
      = .ok ([⟨hash_id "a", "a", "T", "P", true, true⟩], 1) := by
  exact ⟨rfl, rfl, by rfl⟩

/-- C3 amended: the quota counter is incremented exactly for entries whose
`process_item` returned `True` — rewrite succeeded and no posting call
raised — regardless of whether any channel actually delivered; the final
count never exceeds `MAX_POSTS` when the starting count does not, entries
whose processing returned `False` consume no quota (the loop continues to
the next candidate with the same count, so more than `MAX_POSTS`
candidates may be examined), and once the count reaches `MAX_POSTS` the
loop stops publishing. -/
theorem quota_counts_processed_true (env : String → ItemEnv) (m : Nat) (items : List Item) :
    (∀ rows conn count s c, runLoop env m items rows conn count = .ok (s, c) →
      count ≤ c ∧ (count ≤ m → c ≤ m)) ∧
    (∀ (r : Row) rest conn conn' count, count < m →
      process_item (env r.url) (workItemFor items r) conn = .ok (conn', false) →
      runLoop env m items (r :: rest) conn count = runLoop env m items rest conn' count) ∧
    (∀ (r : Row) rest conn conn' count, count < m →
      process_item (env r.url) (workItemFor items r) conn = .ok (conn', true) →
      runLoop env m items (r :: rest) conn count
        = runLoop env m items rest conn' (count + 1)) ∧
    (∀ (rows : List Row) conn count, m ≤ count →
      runLoop env m items rows conn count = .ok (conn, count)) := by
  refine ⟨?_, ?_, ?_, ?_⟩
  · intro rows
    induction rows with
    | nil =>
        intro conn count s c h
        unfold runLoop at h
        simp only [Except.ok.injEq, Prod.mk.injEq] at h
        rw [← h.2]
        exact ⟨Nat.le_refl count, fun hm => hm⟩
    | cons r rest ih =>
        intro conn count s c h
        unfold runLoop at h
        by_cases hc : m ≤ count
        · rw [if_pos hc] at h
          simp only [Except.ok.injEq, Prod.mk.injEq] at h
          rw [← h.2]
          exact ⟨Nat.le_refl count, fun hm => hm⟩
        · rw [if_neg hc] at h
          split at h
          · exact absurd h (by simp)
          · next conn2 heq =>
              obtain ⟨h1, h2⟩ := ih conn2 (count + 1) s c h
              exact ⟨Nat.le_of_succ_le h1,
                fun _ => h2 (Nat.succ_le_of_lt (Nat.lt_of_not_le hc))⟩
          · next conn2 heq => exact ih conn2 count s c h
  · intro r rest conn conn' count hc hp
    conv_lhs => rw [runLoop]
    rw [if_neg (Nat.not_le.mpr hc), hp]
  · intro r rest conn conn' count hc hp
    conv_lhs => rw [runLoop]
    rw [if_neg (Nat.not_le.mpr hc), hp]
  · intro rows conn count hm
    cases rows with
    | nil => rfl
    | cons r rest =>
        conv_lhs => rw [runLoop]
        rw [if_pos hm]

theorem quota_counts_processed_true_witness :
    runLoop (fun _ => envHealthy) 3 [] [⟨"i", "a", "T", "P", false, false⟩] [] 3
      = .ok ([], 3) :=
  (quota_counts_processed_true (fun _ => envHealthy) 3 []).2.2.2
    [⟨"i", "a", "T", "P", false, false⟩] [] 3 (by norm_num)

/-- C10: in every store state reachable by the pipeline's own operations
the two channel flags of each row are equal — rows are created with both
flags false, and the only flag mutation sets both to true in a single
update — so the store never records delivery to exactly one channel. -/
theorem reachable_flags_aligned (c : Store) (h : Reach c) : flagsAligned c := by
  induction h with
  | init => intro r hr; exact absurd hr (by simp)
  | upsert items _ ih => exact flagsAligned_upsert_items _ items ih
  | process env it _ hp ih => exact flagsAligned_process_item env it hp ih

theorem reachable_flags_aligned_witness :
    flagsAligned (upsert_items [] [⟨"a", "T", "S", "P"⟩]) :=
  reachable_flags_aligned _ (Reach.upsert [⟨"a", "T", "S", "P"⟩] Reach.init)

end NewsBot
